import Mathlib

/-!
Verification of the mosaic-me-web grid edit engine.

This file gives a shallow embedding of the grid-editing core of the
repository, translated from the TypeScript sources:

* `frontend/src/utils/gridUtils.ts` — `deepCopyGrid`,
  `recalculateShoppingList`, `floodFill`, `extractColorsFromShoppingList`;
* `frontend/src/hooks/useMosaicEditor.ts` — the edit-session state
  (edited grid, selection, bounded undo/redo history) and its operations
  `enterEditMode`, `addToHistory`, `startPainting`, `applyFill`,
  `applyColorToSelectedCells`, `undo`, `redo`;
* `frontend/src/components/MosaicEditor.tsx` — `handleColorSelect` and the
  fill-tool region computation of `handleCellClick`.

JavaScript arrays become `List`, objects become structures, `Map` with its
insertion-order iteration becomes an association list, and `Set` becomes a
list used as a set.  JavaScript numbers used as indices become `Int` where
the source can produce negatives (queue coordinates in the flood fill) and
`Nat` where it cannot.  A JavaScript access that would dereference
`undefined` (an out-of-bounds read) is modelled by `Option`, with `none`
standing for the thrown `TypeError`.  The unbounded `while` loop of the
flood fill is modelled with an explicit iteration budget (`fuel`) that is
proved sufficient below.
-/

set_option maxHeartbeats 1000000

namespace MosaicMe

/-- An rgb triple, `[number, number, number]` in the source. -/
abbrev RGB := Nat × Nat × Nat

/-- `LegoColor` from `types/index.ts` (the optional `legoId` field is never
read by the grid edit engine and is omitted). -/
structure LegoColor where
  id : String
  name : String
  rgb : RGB
  hex : String
  pickABrickAvailable : Bool
  deriving DecidableEq, Repr

/-- `MosaicGridCell` from `types/index.ts`. -/
structure MosaicGridCell where
  colorId : String
  colorName : String
  rgb : RGB
  hex : String
  deriving DecidableEq, Repr

/-- `ShoppingListItem` from `types/index.ts`. -/
structure ShoppingListItem where
  colorId : String
  colorName : String
  rgb : RGB
  hex : String
  quantity : Nat
  deriving DecidableEq, Repr

/-- `MosaicGridCell[][]`: a grid is a list of rows. -/
abbrev Grid := List (List MosaicGridCell)

/-- `grid.length`, the number of rows. -/
def gridRows (g : Grid) : Nat := g.length

/-- `grid[0].length`, the width the source measures on the first row. -/
def gridCols (g : Grid) : Nat := (g.headD []).length

/-- The grid is rectangular: every row has the width of row 0.  The data
model guarantees this (grids are `baseplateSize x baseplateSize`). -/
def Rect (g : Grid) : Prop := ∀ row ∈ g, row.length = gridCols g

/-- `grid[r][c]` as a partial read: `none` models the `undefined` that a
JavaScript out-of-bounds index yields. -/
def cellAt (g : Grid) (r c : Int) : Option MosaicGridCell :=
  if 0 ≤ r ∧ 0 ≤ c then (g[r.toNat]?).bind fun row => row[c.toNat]? else none

/-- `grid[r][c].colorId` as a partial read. -/
def colorIdAt (g : Grid) (r c : Int) : Option String :=
  (cellAt g r c).map (·.colorId)

/-- The cell `{colorId: color.id, colorName: color.name, rgb: color.rgb,
hex: color.hex}` built by the editing operations. -/
def cellOfColor (color : LegoColor) : MosaicGridCell :=
  { colorId := color.id, colorName := color.name, rgb := color.rgb, hex := color.hex }

/-- `deepCopyGrid` from `gridUtils.ts`: `grid.map(row => row.map(cell => ({ ...cell })))`. -/
def deepCopyGrid (g : Grid) : Grid :=
  g.map fun row => row.map fun cell =>
    { colorId := cell.colorId, colorName := cell.colorName, rgb := cell.rgb, hex := cell.hex }

/-! ## Shopping-list aggregation (`recalculateShoppingList`)

The source walks `grid.flat()`, keeping a `Map` from `colorId` to a
`ShoppingListItem` whose `quantity` it increments; a `Map` iterates in
insertion order, so the association list below preserves exactly that
order.  It then sorts by `(a, b) => b.quantity - a.quantity`;
`Array.prototype.sort` is stable, and a stable sort under a total preorder
has a unique result, so the stable `List.mergeSort` is the same function. -/

/-- One step of the counting loop: bump the quantity of the item with the
cell color id, or append a fresh item with quantity 1. -/
def bumpColor : List ShoppingListItem → MosaicGridCell → List ShoppingListItem
  | [], cell =>
    [{ colorId := cell.colorId, colorName := cell.colorName, rgb := cell.rgb,
       hex := cell.hex, quantity := 1 }]
  | item :: rest, cell =>
    if item.colorId = cell.colorId then
      { item with quantity := item.quantity + 1 } :: rest
    else
      item :: bumpColor rest cell

/-- The counting phase: fold the flattened grid through the map. -/
def countColors (g : Grid) : List ShoppingListItem :=
  g.flatten.foldl bumpColor []

/-- The sort order `(a, b) => b.quantity - a.quantity`: `a` may precede `b`
exactly when `b.quantity ≤ a.quantity`. -/
def itemLe (a b : ShoppingListItem) : Bool := b.quantity ≤ a.quantity

/-- `recalculateShoppingList` from `gridUtils.ts`. -/
def recalculateShoppingList (g : Grid) : List ShoppingListItem :=
  (countColors g).mergeSort itemLe

/-- `extractColorsFromShoppingList` from `gridUtils.ts`: every produced
color gets `pickABrickAvailable: true` unconditionally. -/
def extractColorsFromShoppingList (sl : List ShoppingListItem) : List LegoColor :=
  sl.map fun item =>
    { id := item.colorId, name := item.colorName, rgb := item.rgb, hex := item.hex,
      pickABrickAvailable := true }

/-! ## Flood fill (`floodFill`)

The source keeps a FIFO queue of `[row, col]` pairs (`shift` from the
front, `push` to the back), a visited set of `row-col` string keys (the
key map is injective on integer pairs, so a list of pairs models it), a
frozen read grid `grid`, and a write grid `newGrid`.  Each iteration pops
one pair and either skips it (already visited, out of bounds, or not the
original color — checked in that order, against `grid.length` and
`grid[0].length`) or marks it visited, overwrites the cell in `newGrid`
from the new color, and enqueues its four neighbours. -/

/-- The bounds test of the source, in source orientation:
`row < 0 || row >= grid.length || col < 0 || col >= grid[0].length`. -/
def outOfBounds (g : Grid) (r c : Int) : Prop :=
  r < 0 ∨ (gridRows g : Int) ≤ r ∨ c < 0 ∨ (gridCols g : Int) ≤ c

instance (g : Grid) (r c : Int) : Decidable (outOfBounds g r c) := by
  unfold outOfBounds; infer_instance

/-- `newGrid[r][c] = cell` for in-range indices; out of range it is the
identity (the loop only writes in-bounds positions). -/
def setCell (g : Grid) (r c : Nat) (cell : MosaicGridCell) : Grid :=
  List.modify (fun row => row.set c cell) r g

/-- The `while (queue.length > 0)` loop of `floodFill`, with an explicit
iteration budget; `floodFillLoop_phi_le` below shows the budget used by
`floodFill` is never exhausted.  Returns the written grid and the visited
set. -/
def floodFillLoop (g : Grid) (orig : String) (nc : LegoColor) :
    Nat → List (Int × Int) → List (Int × Int) → Grid → Grid × List (Int × Int)
  | 0, _, visited, out => (out, visited)
  | _ + 1, [], visited, out => (out, visited)
  | fuel + 1, (r, c) :: rest, visited, out =>
    if (r, c) ∈ visited then
      floodFillLoop g orig nc fuel rest visited out
    else if outOfBounds g r c then
      floodFillLoop g orig nc fuel rest visited out
    else if colorIdAt g r c ≠ some orig then
      floodFillLoop g orig nc fuel rest visited out
    else
      floodFillLoop g orig nc fuel
        (rest ++ [(r - 1, c), (r + 1, c), (r, c - 1), (r, c + 1)])
        ((r, c) :: visited)
        (setCell out r.toNat c.toNat (cellOfColor nc))

/-- Iteration budget: one initial queue entry plus four enqueues per cell. -/
def floodFillFuel (g : Grid) : Nat := 1 + 4 * (gridRows g * gridCols g)

/-- `floodFill` from `gridUtils.ts`.  The very first line of the source
reads `grid[startRow][startCol].colorId` with no bounds check, so an
out-of-bounds start throws (`none` here).  If the start cell already has
the target color the input array itself is returned; otherwise the BFS
runs over a frozen `grid` and writes into a deep copy. -/
def floodFill (g : Grid) (startRow startCol : Int) (newColor : LegoColor) : Option Grid :=
  match colorIdAt g startRow startCol with
  | none => none
  | some originalColor =>
    if originalColor = newColor.id then some g
    else
      some (floodFillLoop g originalColor newColor (floodFillFuel g)
        [(startRow, startCol)] [] (deepCopyGrid g)).1

/-- The fill-tool branch of `handleCellClick` in `MosaicEditor.tsx` runs
the same loop without writing a grid, collecting `connectedCells` (which
coincides with its `visited` set: both receive exactly the keys that pass
all three checks). -/
def selectLoop (g : Grid) (orig : String) :
    Nat → List (Int × Int) → List (Int × Int) → List (Int × Int)
  | 0, _, visited => visited
  | _ + 1, [], visited => visited
  | fuel + 1, (r, c) :: rest, visited =>
    if (r, c) ∈ visited then
      selectLoop g orig fuel rest visited
    else if outOfBounds g r c then
      selectLoop g orig fuel rest visited
    else if colorIdAt g r c ≠ some orig then
      selectLoop g orig fuel rest visited
    else
      selectLoop g orig fuel
        (rest ++ [(r - 1, c), (r + 1, c), (r, c - 1), (r, c + 1)])
        ((r, c) :: visited)

/-- The connected-cell set computed by `handleCellClick` for the fill
tool; the initial read `editedGrid[row][col].colorId` is again unguarded. -/
def connectedCells (g : Grid) (row col : Int) : Option (List (Int × Int)) :=
  match colorIdAt g row col with
  | none => none
  | some originalColor =>
    some (selectLoop g originalColor (floodFillFuel g) [(row, col)] [])

/-! ## The connected region, and the loop invariant -/

/-- 4-directional adjacency (up, down, left, right). -/
def adj (p q : Int × Int) : Prop :=
  q = (p.1 - 1, p.2) ∨ q = (p.1 + 1, p.2) ∨ q = (p.1, p.2 - 1) ∨ q = (p.1, p.2 + 1)

/-- The maximal 4-connected region of cells sharing the color id of the
start cell: the least set containing the start and closed under stepping
to an adjacent cell that reads back the same color id (such a read also
forces the cell to be in bounds). -/
inductive Region (g : Grid) (s : Int × Int) : Int × Int → Prop
  | base : Region g s s
  | step {p q : Int × Int} : Region g s p → adj p q →
      colorIdAt g q.1 q.2 = colorIdAt g s.1 s.2 → Region g s q

/-- All in-bounds coordinates, as a finite set. -/
def allCells (g : Grid) : Finset (Int × Int) :=
  ((Finset.range (gridRows g)) ×ˢ (Finset.range (gridCols g))).image
    fun p => ((p.1 : Int), (p.2 : Int))

/-- Termination potential of the loop: it strictly decreases at every
iteration (pop one; a visit enqueues four but claims a fresh cell). -/
def phi (g : Grid) (queue visited : List (Int × Int)) : Nat :=
  queue.length + 4 * ((allCells g) \ visited.toFinset).card

/-- The row widths of a grid; `setCell` preserves them. -/
def gridShape (g : Grid) : List Nat := g.map (·.length)

/-! ## The edit session (`useMosaicEditor.ts` and `MosaicEditor.tsx`)

The hook state is modelled as one record.  All claims concern sessions
after `enterEditMode`, where `editedGrid` and `originalGrid` are non-null
and `historyIndex` is non-negative, so those fields are total and the
index is a `Nat` (the eviction branch only runs with index at least 49,
so its decrement never truncates).  `selectedCells` is the `Set` of
`row-col` keys, kept in insertion order; keys are produced from actual
cell coordinates, hence non-negative. -/

/-- `MAX_HISTORY_SIZE` from `useMosaicEditor.ts`. -/
def MAX_HISTORY_SIZE : Nat := 50

/-- The state of `useMosaicEditor` during an edit session. -/
structure EditorSession where
  editedGrid : Grid
  originalGrid : Grid
  selectedColor : Option LegoColor
  selectedCells : List (Nat × Nat)
  isPainting : Bool
  history : List Grid
  historyIndex : Nat
  deriving DecidableEq, Repr

/-- `canUndo`: `historyIndex > 0`. -/
def canUndo (s : EditorSession) : Bool := 0 < s.historyIndex

/-- `canRedo`: `historyIndex < history.length - 1` (on the empty history
the JavaScript comparison against -1 is false, as is the truncated
subtraction here). -/
def canRedo (s : EditorSession) : Bool := s.historyIndex < s.history.length - 1

/-- `enterEditMode(grid)` on a freshly mounted hook: the copy seeds
`editedGrid`, `originalGrid`, and history entry 0; cursor 0; selection
cleared; `selectedColor` keeps its initial null. -/
def enterEditMode (g : Grid) : EditorSession :=
  { editedGrid := deepCopyGrid g
    originalGrid := deepCopyGrid g
    selectedColor := none
    selectedCells := []
    isPainting := false
    history := [deepCopyGrid g]
    historyIndex := 0 }

/-- `addToHistory(grid)`: truncate the redo tail, append a copy, and on
overflow drop the oldest entry (`shift`) and decrement the cursor;
otherwise point the cursor at the new last entry. -/
def addToHistory (g : Grid) (s : EditorSession) : EditorSession :=
  let newHistory := s.history.take (s.historyIndex + 1) ++ [deepCopyGrid g]
  if MAX_HISTORY_SIZE < newHistory.length then
    { s with history := newHistory.tail, historyIndex := s.historyIndex - 1 }
  else
    { s with history := newHistory, historyIndex := newHistory.length - 1 }

/-- `startPainting(row, col)`. -/
def startPainting (r c : Nat) (s : EditorSession) : EditorSession :=
  { s with isPainting := true, selectedCells := [(r, c)] }

/-- `continuePainting(row, col)`: a `Set.add`, keeping insertion order. -/
def continuePainting (r c : Nat) (s : EditorSession) : EditorSession :=
  if s.isPainting then
    { s with selectedCells :=
        if (r, c) ∈ s.selectedCells then s.selectedCells else s.selectedCells ++ [(r, c)] }
  else s

/-- `stopPainting()`. -/
def stopPainting (s : EditorSession) : EditorSession := { s with isPainting := false }

/-- `undo()`: guarded by `canUndo && history.length > 0`. -/
def undo (s : EditorSession) : EditorSession :=
  if 0 < s.historyIndex ∧ s.history ≠ [] then
    { s with historyIndex := s.historyIndex - 1
             editedGrid := deepCopyGrid (s.history.getD (s.historyIndex - 1) []) }
  else s

/-- `redo()`: guarded by `canRedo && history.length > 0`. -/
def redo (s : EditorSession) : EditorSession :=
  if s.historyIndex < s.history.length - 1 ∧ s.history ≠ [] then
    { s with historyIndex := s.historyIndex + 1
             editedGrid := deepCopyGrid (s.history.getD (s.historyIndex + 1) []) }
  else s

/-- `applyColorToSelectedCells(newGrid)`: set the grid, push history,
clear the selection. -/
def applyColorToSelectedCells (newGrid : Grid) (s : EditorSession) : EditorSession :=
  { addToHistory newGrid { s with editedGrid := newGrid } with selectedCells := [] }

/-- The grid rewriting of `handleColorSelect` in `MosaicEditor.tsx`: for
every selected key in insertion order, bounds-check against the copied
grid and overwrite the cell from the chosen color. -/
def overwriteCells (g : Grid) (sel : List (Nat × Nat)) (color : LegoColor) : Grid :=
  sel.foldl
    (fun acc p =>
      if p.1 < acc.length ∧ p.2 < (acc.headD []).length then
        setCell acc p.1 p.2 (cellOfColor color)
      else acc)
    g

/-- `handleColorSelect(color)`: with a nonempty selection, rewrite the
selected cells and hand the grid to `applyColorToSelectedCells`; with an
empty selection, do nothing. -/
def handleColorSelect (color : LegoColor) (s : EditorSession) : EditorSession :=
  if s.selectedCells ≠ [] then
    applyColorToSelectedCells (overwriteCells s.editedGrid s.selectedCells color) s
  else s

/-- `applyFill(row, col)`: flood fill from the clicked cell with the
selected color.  The source pushes history only when `floodFill` returned
a new array (`newGrid !== editedGrid`), which happens exactly when the
start cell color differs from the target color; `none` models the throw
of an out-of-bounds click. -/
def applyFill (r c : Int) (s : EditorSession) : Option EditorSession :=
  match s.selectedColor with
  | none => some s
  | some color =>
    match floodFill s.editedGrid r c color with
    | none => none
    | some newGrid =>
      if colorIdAt s.editedGrid r c = some color.id then some s
      else some (addToHistory newGrid { s with editedGrid := newGrid })

/-! ## Loop invariant, measuring devices, and concrete fixtures -/

/-- Invariant of the flood-fill loop, relative to the frozen grid `g`, the
start cell `s`, the original color id `orig`, and the fill color `nc`:
visited cells lie in the region and have been recolored in `out`; every
queued cell is the start or adjacent to a visited cell; every matching
neighbour of a visited cell is visited or queued; the start is visited or
queued; everything outside `visited` is untouched in `out`. -/
structure LoopInv (g : Grid) (s : Int × Int) (orig : String) (nc : LegoColor)
    (queue visited : List (Int × Int)) (out : Grid) : Prop where
  sound : ∀ p ∈ visited, Region g s p
  queued : ∀ p ∈ queue, p = s ∨ ∃ v ∈ visited, adj v p
  closed : ∀ v ∈ visited, ∀ p, adj v p → colorIdAt g p.1 p.2 = some orig →
      p ∈ visited ∨ p ∈ queue
  pending : s ∈ visited ∨ s ∈ queue
  vis_color : ∀ p ∈ visited, colorIdAt g p.1 p.2 = some orig
  vis_nodup : visited.Nodup
  out_shape : gridShape out = gridShape g
  out_vis : ∀ p ∈ visited, cellAt out p.1 p.2 = some (cellOfColor nc)
  out_rest : ∀ r c : Int, (r, c) ∉ visited → cellAt out r c = cellAt g r c

/-- The visited set produced by a `floodFill` call (empty when the loop
never runs); used to state that the traversal visits each cell at most
once. -/
def floodFillVisited (g : Grid) (r c : Int) (nc : LegoColor) : List (Int × Int) :=
  match colorIdAt g r c with
  | none => []
  | some orig =>
    if orig = nc.id then []
    else (floodFillLoop g orig nc (floodFillFuel g) [(r, c)] [] (deepCopyGrid g)).2

/-- Cell consistency: every cell of the grid is the four-field image of
some palette color (the four fields are always copied together). -/
def Consistent (palette : List LegoColor) (g : Grid) : Prop :=
  ∀ row ∈ g, ∀ cell ∈ row, ∃ color ∈ palette, cell = cellOfColor color

instance (g : Grid) : Decidable (Rect g) := by
  unfold Rect; infer_instance

instance (palette : List LegoColor) (g : Grid) : Decidable (Consistent palette g) := by
  unfold Consistent; infer_instance

/-- Index of the first occurrence of a color id in a flattened cell list
(row-major order); the measuring device for the tie-break claim. -/
def firstIdx : List String → String → Nat
  | [], _ => 0
  | y :: l, x => if y = x then 0 else firstIdx l x + 1

/-- Fixture: a lego color with a given id. -/
def mkColor (i : String) : LegoColor :=
  { id := i, name := String.append "color " i, rgb := (7, 7, 7), hex := String.append "#" i,
    pickABrickAvailable := true }

/-- Fixture color `A`. -/
def colorA : LegoColor := mkColor "A"

/-- Fixture color `B`. -/
def colorB : LegoColor := mkColor "B"

/-- Fixture: the 2 x 2 grid whose four cells all carry color `A`. -/
def gridAA : Grid :=
  [[cellOfColor colorA, cellOfColor colorA], [cellOfColor colorA, cellOfColor colorA]]

/-- Fixture: the 2 x 2 grid whose four cells all carry color `B`. -/
def gridBB : Grid :=
  [[cellOfColor colorB, cellOfColor colorB], [cellOfColor colorB, cellOfColor colorB]]

/-- Fixture: a 1 x 1 grid whose cell differs only in the rgb field, giving
arbitrarily many distinct one-cell grids. -/
def grid1 (k : Nat) : Grid :=
  [[{ colorId := "c", colorName := "c", rgb := (k, 0, 0), hex := "#c" }]]

/-- Fixture: the session obtained from a fresh edit session on `grid1 0`
by `k` successive distinct edits, each pushed through
`applyColorToSelectedCells`. -/
def sessionAfter : Nat → EditorSession
  | 0 => enterEditMode (grid1 0)
  | k + 1 => applyColorToSelectedCells (grid1 (k + 1)) (sessionAfter k)

/-- Fixture: a fresh session on the all-`A` grid with color `A` selected. -/
def sessionAA : EditorSession :=
  { enterEditMode gridAA with selectedColor := some colorA }

/-! ## Basic lemmas about grids and cell access -/

/-- Under value semantics a deep copy is the grid itself. -/
theorem deepCopyGrid_eq (g : Grid) : deepCopyGrid g = g := by
  unfold deepCopyGrid
  have h : (fun cell : MosaicGridCell =>
      ({ colorId := cell.colorId, colorName := cell.colorName,
         rgb := cell.rgb, hex := cell.hex } : MosaicGridCell)) = id := rfl
  simp [h]

theorem gridShape_setCell (g : Grid) (r c : Nat) (x : MosaicGridCell) :
    gridShape (setCell g r c x) = gridShape g := by
  unfold gridShape setCell
  apply List.ext_getElem?
  intro i
  simp only [List.getElem?_map, List.getElem?_modify]
  cases hg : g[i]? with
  | none => rfl
  | some row =>
    by_cases hri : r = i <;> simp [hri]

theorem length_of_shape {g h : Grid} (hs : gridShape h = gridShape g) :
    h.length = g.length := by
  have := congrArg List.length hs
  simpa [gridShape] using this

theorem row_of_shape {g h : Grid} (hs : gridShape h = gridShape g) (i : Nat) :
    (h[i]?).map List.length = (g[i]?).map List.length := by
  have := congrArg (fun l => l[i]?) hs
  simpa [gridShape, List.getElem?_map] using this

theorem cellAt_setCell_ne (g : Grid) (r c : Nat) (x : MosaicGridCell) (a b : Int)
    (h : ¬(a = (r : Int) ∧ b = (c : Int))) :
    cellAt (setCell g r c x) a b = cellAt g a b := by
  unfold cellAt setCell
  by_cases hpos : 0 ≤ a ∧ 0 ≤ b
  · simp only [if_pos hpos]
    rw [List.getElem?_modify]
    by_cases hra : r = a.toNat
    · cases hg : g[a.toNat]? with
      | none => simp [hra]
      | some row =>
        have hbc : b.toNat ≠ c := by
          intro hb
          exact h ⟨by omega, by omega⟩
        simp [hra, List.getElem?_set_ne (Ne.symm hbc)]
    · cases hg : g[a.toNat]? with
      | none => simp [hra]
      | some row => simp [hra]
  · simp [if_neg hpos]

theorem cellAt_setCell_self (g : Grid) (r c : Int) (x : MosaicGridCell)
    (h0r : 0 ≤ r) (h0c : 0 ≤ c) (hr : r.toNat < g.length)
    (hc : ∀ row, g[r.toNat]? = some row → c.toNat < row.length) :
    cellAt (setCell g r.toNat c.toNat x) r c = some x := by
  unfold cellAt setCell
  rw [if_pos ⟨h0r, h0c⟩, List.getElem?_modify]
  cases hg : g[r.toNat]? with
  | none =>
    have := List.getElem?_eq_none_iff.mp hg
    omega
  | some row =>
    simp only [Option.map_some, if_pos rfl, Option.bind_some]
    exact List.getElem?_set_self (by simpa using hc _ hg)

theorem cellAt_eq_none_of_oob {g : Grid} (hrect : Rect g) {r c : Int}
    (h : outOfBounds g r c) : cellAt g r c = none := by
  unfold cellAt
  by_cases hpos : 0 ≤ r ∧ 0 ≤ c
  · rw [if_pos hpos]
    unfold outOfBounds gridRows at h
    rcases h with h | h | h | h
    · omega
    · rw [List.getElem?_eq_none (by omega)]; rfl
    · omega
    · cases hg : g[r.toNat]? with
      | none => rfl
      | some row =>
        have hmem : row ∈ g := List.getElem?_mem hg
        have hlen : row.length = gridCols g := hrect row hmem
        simp [List.getElem?_eq_none (by omega : row.length ≤ c.toNat)]
  · rw [if_neg hpos]

theorem cellAt_isSome_of_inb {g : Grid} (hrect : Rect g) {r c : Int}
    (h : ¬ outOfBounds g r c) : ∃ cell, cellAt g r c = some cell := by
  unfold outOfBounds gridRows at h
  push_neg at h
  obtain ⟨h1, h2, h3, h4⟩ := h
  have hr : r.toNat < g.length := by omega
  cases hg : g[r.toNat]? with
  | none =>
    have := List.getElem?_eq_none_iff.mp hg
    omega
  | some row =>
    have hmem : row ∈ g := List.getElem?_mem hg
    have hlen : row.length = gridCols g := hrect _ hmem
    have hcn : c.toNat < row.length := by omega
    cases hcell : row[c.toNat]? with
    | none =>
      have := List.getElem?_eq_none_iff.mp hcell
      omega
    | some cell =>
      refine ⟨cell, ?_⟩
      unfold cellAt
      rw [if_pos ⟨by omega, by omega⟩, hg]
      simpa using hcell

theorem colorIdAt_ne_of_oob {g : Grid} (hrect : Rect g) {r c : Int}
    (h : outOfBounds g r c) (x : String) : colorIdAt g r c ≠ some x := by
  unfold colorIdAt
  rw [cellAt_eq_none_of_oob hrect h]
  simp

theorem not_oob_of_colorIdAt {g : Grid} {r c : Int} {x : String}
    (hrect : Rect g) (h : colorIdAt g r c = some x) : ¬ outOfBounds g r c := by
  intro hob
  exact colorIdAt_ne_of_oob hrect hob x h

theorem mem_allCells {g : Grid} {p : Int × Int} :
    p ∈ allCells g ↔ ¬ outOfBounds g p.1 p.2 := by
  unfold allCells outOfBounds gridRows
  simp only [Finset.mem_image, Finset.mem_product, Finset.mem_range, Prod.exists]
  constructor
  · rintro ⟨a, b, ⟨ha, hb⟩, rfl⟩
    push_neg
    refine ⟨by omega, by omega, by omega, by omega⟩
  · intro h
    push_neg at h
    obtain ⟨h1, h2, h3, h4⟩ := h
    refine ⟨p.1.toNat, p.2.toNat, ⟨by omega, by omega⟩, ?_⟩
    obtain ⟨a, b⟩ := p
    simp only [Prod.mk.injEq]
    constructor <;> omega

theorem card_allCells_le (g : Grid) :
    (allCells g).card ≤ gridRows g * gridCols g := by
  unfold allCells
  calc (((Finset.range (gridRows g)) ×ˢ (Finset.range (gridCols g))).image
          fun p => ((p.1 : Int), (p.2 : Int))).card
      ≤ ((Finset.range (gridRows g)) ×ˢ (Finset.range (gridCols g))).card :=
        Finset.card_image_le
    _ = gridRows g * gridCols g := by
        rw [Finset.card_product, Finset.card_range, Finset.card_range]

/-! ## Correctness of the flood-fill loop -/

/-- A set containing the start and closed under matching steps contains
the whole region. -/
theorem region_subset_of_closed {g : Grid} {s : Int × Int} {orig : String}
    (hs : colorIdAt g s.1 s.2 = some orig) {V : List (Int × Int)} (hstart : s ∈ V)
    (hcl : ∀ v ∈ V, ∀ p, adj v p → colorIdAt g p.1 p.2 = some orig → p ∈ V) :
    ∀ p, Region g s p → p ∈ V := by
  intro p hp
  induction hp with
  | base => exact hstart
  | step hreg hadj hcol ih =>
    exact hcl _ ih _ hadj (by rw [hcol, hs])

/-- The loop preserves the invariant and, given enough fuel, drains the
queue: the result satisfies the invariant with an empty queue. -/
theorem floodFillLoop_inv (g : Grid) (s : Int × Int) (orig : String) (nc : LegoColor)
    (hrect : Rect g) (hs : colorIdAt g s.1 s.2 = some orig) :
    ∀ (fuel : Nat) (queue visited : List (Int × Int)) (out : Grid),
      LoopInv g s orig nc queue visited out →
      phi g queue visited ≤ fuel →
      ∃ V out2, floodFillLoop g orig nc fuel queue visited out = (out2, V) ∧
        LoopInv g s orig nc [] V out2 := by
  intro fuel
  induction fuel with
  | zero =>
    intro queue visited out hinv hphi
    have hq : queue = [] := by
      have : queue.length = 0 := by
        unfold phi at hphi; omega
      exact List.eq_nil_of_length_eq_zero this
    subst hq
    exact ⟨visited, out, rfl, hinv⟩
  | succ fuel ih =>
    intro queue visited out hinv hphi
    rcases queue with _ | ⟨⟨r, c⟩, rest⟩
    · exact ⟨visited, out, rfl, hinv⟩
    by_cases hmem : (r, c) ∈ visited
    · rw [floodFillLoop, if_pos hmem]
      apply ih
      · refine ⟨hinv.sound, ?_, ?_, ?_, hinv.vis_color, hinv.vis_nodup,
          hinv.out_shape, hinv.out_vis, hinv.out_rest⟩
        · intro p hp
          exact hinv.queued p (List.mem_cons_of_mem _ hp)
        · intro v hv p hadj hcol
          rcases hinv.closed v hv p hadj hcol with h | h
          · exact Or.inl h
          · rcases List.mem_cons.mp h with h | h
            · subst h; exact Or.inl hmem
            · exact Or.inr h
        · rcases hinv.pending with h | h
          · exact Or.inl h
          · rcases List.mem_cons.mp h with h | h
            · rw [h]; exact Or.inl hmem
            · exact Or.inr h
      · unfold phi at hphi ⊢
        simp only [List.length_cons] at hphi
        omega
    rw [floodFillLoop, if_neg hmem]
    by_cases hob : outOfBounds g r c
    · rw [if_pos hob]
      have hcol_none : ∀ x : String, colorIdAt g r c ≠ some x :=
        fun x => colorIdAt_ne_of_oob hrect hob x
      apply ih
      · refine ⟨hinv.sound, ?_, ?_, ?_, hinv.vis_color, hinv.vis_nodup,
          hinv.out_shape, hinv.out_vis, hinv.out_rest⟩
        · intro p hp
          exact hinv.queued p (List.mem_cons_of_mem _ hp)
        · intro v hv p hadj hcol
          rcases hinv.closed v hv p hadj hcol with h | h
          · exact Or.inl h
          · rcases List.mem_cons.mp h with h | h
            · exact absurd hcol (h ▸ hcol_none orig)
            · exact Or.inr h
        · rcases hinv.pending with h | h
          · exact Or.inl h
          · rcases List.mem_cons.mp h with h | h
            · exact absurd hs (h ▸ hcol_none orig)
            · exact Or.inr h
      · unfold phi at hphi ⊢
        simp only [List.length_cons] at hphi
        omega
    rw [if_neg hob]
    by_cases hcol : colorIdAt g r c = some orig
    · rw [if_neg (fun hne => hne hcol)]
      have hins : (r, c) ∈ allCells g \ visited.toFinset :=
        Finset.mem_sdiff.mpr ⟨mem_allCells.mpr hob, by simpa [List.mem_toFinset] using hmem⟩
      apply ih
      · refine ⟨?_, ?_, ?_, ?_, ?_, ?_, ?_, ?_, ?_⟩
        · intro p hp
          rcases List.mem_cons.mp hp with h | h
          · subst h
            rcases hinv.queued (r, c) (List.mem_cons_self _ _) with h | h
            · rw [h]; exact Region.base
            · obtain ⟨v, hv, hadj⟩ := h
              exact Region.step (hinv.sound v hv) hadj (by rw [hcol, hs])
          · exact hinv.sound p h
        · intro p hp
          rcases List.mem_append.mp hp with h | h
          · rcases hinv.queued p (List.mem_cons_of_mem _ h) with h2 | h2
            · exact Or.inl h2
            · obtain ⟨v, hv, hadj⟩ := h2
              exact Or.inr ⟨v, List.mem_cons_of_mem _ hv, hadj⟩
          · refine Or.inr ⟨(r, c), List.mem_cons_self _ _, ?_⟩
            unfold adj
            simp only [List.mem_cons, List.not_mem_nil, or_false] at h
            rcases h with h | h | h | h <;> simp [h]
        · intro v hv p hadj hpcol
          rcases List.mem_cons.mp hv with h | h
          · subst h
            refine Or.inr (List.mem_append.mpr (Or.inr ?_))
            unfold adj at hadj
            obtain ⟨a, b⟩ := p
            rcases hadj with h | h | h | h <;> simp_all
          · rcases hinv.closed v h p hadj hpcol with h2 | h2
            · exact Or.inl (List.mem_cons_of_mem _ h2)
            · rcases List.mem_cons.mp h2 with h3 | h3
              · exact Or.inl (h3 ▸ List.mem_cons_self _ _)
              · exact Or.inr (List.mem_append.mpr (Or.inl h3))
        · rcases hinv.pending with h | h
          · exact Or.inl (List.mem_cons_of_mem _ h)
          · rcases List.mem_cons.mp h with h | h
            · exact Or.inl (h ▸ List.mem_cons_self _ _)
            · exact Or.inr (List.mem_append.mpr (Or.inl h))
        · intro p hp
          rcases List.mem_cons.mp hp with h | h
          · subst h; exact hcol
          · exact hinv.vis_color p h
        · exact List.nodup_cons.mpr ⟨hmem, hinv.vis_nodup⟩
        · rw [gridShape_setCell]; exact hinv.out_shape
        · intro p hp
          unfold outOfBounds gridRows at hob
          push_neg at hob
          obtain ⟨h1, h2, h3, h4⟩ := hob
          rcases List.mem_cons.mp hp with h | h
          · subst h
            apply cellAt_setCell_self _ _ _ _ h1 h3
            · have := length_of_shape hinv.out_shape
              omega
            · intro row hrow
              have hmap := row_of_shape hinv.out_shape r.toNat
              rw [hrow] at hmap
              cases hg : g[r.toNat]? with
              | none =>
                rw [hg] at hmap; simp at hmap
              | some grow =>
                rw [hg] at hmap
                have : row.length = grow.length := by simpa using hmap
                have : grow.length = gridCols g := hrect grow (List.getElem?_mem hg)
                omega
          · have hne : ¬(p.1 = ((r.toNat : Nat) : Int) ∧ p.2 = ((c.toNat : Nat) : Int)) := by
              intro hcontra
              apply hmem
              have : p = (r, c) := by
                obtain ⟨a, b⟩ := p
                obtain ⟨ha, hb⟩ := hcontra
                simp only [Prod.mk.injEq]
                constructor <;> omega
              exact this ▸ h
            rw [cellAt_setCell_ne _ _ _ _ _ _ hne]
            exact hinv.out_vis p h
        · intro a b hab
          have hne1 : (a, b) ≠ (r, c) := fun h => hab (h ▸ List.mem_cons_self _ _)
          have hne2 : (a, b) ∉ visited := fun h => hab (List.mem_cons_of_mem _ h)
          unfold outOfBounds gridRows at hob
          push_neg at hob
          obtain ⟨h1, h2, h3, h4⟩ := hob
          have hne : ¬(a = ((r.toNat : Nat) : Int) ∧ b = ((c.toNat : Nat) : Int)) := by
            intro hcontra
            apply hne1
            obtain ⟨ha, hb⟩ := hcontra
            simp only [Prod.mk.injEq]
            constructor <;> omega
          rw [cellAt_setCell_ne _ _ _ _ _ _ hne]
          exact hinv.out_rest a b hne2
      · have hcard : ((allCells g) \ ((r, c) :: visited).toFinset).card
            = ((allCells g) \ visited.toFinset).card - 1 := by
          rw [List.toFinset_cons, Finset.sdiff_insert]
          exact Finset.card_erase_of_mem hins
        have hpos : 0 < ((allCells g) \ visited.toFinset).card :=
          Finset.card_pos.mpr ⟨(r, c), hins⟩
        unfold phi at hphi ⊢
        rw [hcard]
        simp only [List.length_append, List.length_cons, List.length_nil] at hphi ⊢
        omega
    · rw [if_pos (by simpa using hcol)]
      apply ih
      · refine ⟨hinv.sound, ?_, ?_, ?_, hinv.vis_color, hinv.vis_nodup,
          hinv.out_shape, hinv.out_vis, hinv.out_rest⟩
        · intro p hp
          exact hinv.queued p (List.mem_cons_of_mem _ hp)
        · intro v hv p hadj hpcol
          rcases hinv.closed v hv p hadj hpcol with h | h
          · exact Or.inl h
          · rcases List.mem_cons.mp h with h | h
            · rw [h] at hpcol; exact absurd hpcol hcol
            · exact Or.inr h
        · rcases hinv.pending with h | h
          · exact Or.inl h
          · rcases List.mem_cons.mp h with h | h
            · have hs2 := hs
              rw [h] at hs2
              exact absurd hs2 hcol
            · exact Or.inr h
      · unfold phi at hphi ⊢
        simp only [List.length_cons] at hphi
        omega

/-- Every cell of the region reads back the color id of the start cell. -/
theorem region_color {g : Grid} {s p : Int × Int} (h : Region g s p) :
    colorIdAt g p.1 p.2 = colorIdAt g s.1 s.2 := by
  induction h with
  | base => rfl
  | step hreg hadj hcol ih => exact hcol

/-- Specification of the canonical loop run started by `floodFill` and
`handleCellClick`: the visited set is exactly the region, each cell is
visited at most once, visited cells are recolored, others untouched. -/
theorem floodFillRun_spec (g : Grid) (a b : Int) (orig : String) (nc : LegoColor)
    (hrect : Rect g) (horig : colorIdAt g a b = some orig) :
    ∃ out2 V,
      floodFillLoop g orig nc (floodFillFuel g) [(a, b)] [] (deepCopyGrid g) = (out2, V) ∧
      V.Nodup ∧ (∀ p, p ∈ V ↔ Region g (a, b) p) ∧
      (∀ p ∈ V, cellAt out2 p.1 p.2 = some (cellOfColor nc)) ∧
      (∀ r c : Int, (r, c) ∉ V → cellAt out2 r c = cellAt g r c) := by
  have hinit : LoopInv g (a, b) orig nc [(a, b)] [] (deepCopyGrid g) := by
    refine ⟨?_, ?_, ?_, ?_, ?_, ?_, ?_, ?_, ?_⟩
    · intro p hp; simp at hp
    · intro p hp
      simp only [List.mem_singleton] at hp
      exact Or.inl hp
    · intro v hv; simp at hv
    · exact Or.inr (List.mem_singleton.mpr rfl)
    · intro p hp; simp at hp
    · exact List.nodup_nil
    · rw [deepCopyGrid_eq]
    · intro p hp; simp at hp
    · intro r c h; rw [deepCopyGrid_eq]
  have hphi : phi g [(a, b)] [] ≤ floodFillFuel g := by
    unfold phi floodFillFuel
    have hcard := card_allCells_le g
    simp only [List.toFinset_nil, Finset.sdiff_empty, List.length_singleton]
    omega
  obtain ⟨V, out2, heq, hfin⟩ :=
    floodFillLoop_inv g (a, b) orig nc hrect horig _ _ _ _ hinit hphi
  have hstart : (a, b) ∈ V := by
    rcases hfin.pending with h | h
    · exact h
    · simp at h
  have hclosed : ∀ v ∈ V, ∀ p, adj v p → colorIdAt g p.1 p.2 = some orig → p ∈ V := by
    intro v hv p hadj hcol
    rcases hfin.closed v hv p hadj hcol with h | h
    · exact h
    · simp at h
  refine ⟨out2, V, heq, hfin.vis_nodup, ?_, hfin.out_vis, hfin.out_rest⟩
  intro p
  constructor
  · exact fun hp => hfin.sound p hp
  · exact region_subset_of_closed horig hstart hclosed p

/-- The selection loop of `handleCellClick` computes exactly the visited
set of the flood-fill loop (the two loops have identical control). -/
theorem selectLoop_eq (g : Grid) (orig : String) (nc : LegoColor) :
    ∀ (fuel : Nat) (queue visited : List (Int × Int)) (out : Grid),
      selectLoop g orig fuel queue visited =
        (floodFillLoop g orig nc fuel queue visited out).2 := by
  intro fuel
  induction fuel with
  | zero => intro queue visited out; rfl
  | succ fuel ih =>
    intro queue visited out
    rcases queue with _ | ⟨⟨r, c⟩, rest⟩
    · rfl
    rw [selectLoop, floodFillLoop]
    split_ifs with h1 h2 h3
    · exact ih _ _ _
    · exact ih _ _ _
    · exact ih _ _ _
    · exact ih _ _ _

/-- A row of a modified grid is an original row or the image of one. -/
theorem mem_of_mem_modify {f : List MosaicGridCell → List MosaicGridCell} {n : Nat}
    {l : Grid} {row : List MosaicGridCell} (h : row ∈ List.modify f n l) :
    row ∈ l ∨ ∃ row0 ∈ l, row = f row0 := by
  obtain ⟨i, hi⟩ := List.mem_iff_getElem?.mp h
  rw [List.getElem?_modify] at hi
  cases hg : l[i]? with
  | none => rw [hg] at hi; simp at hi
  | some row0 =>
    rw [hg] at hi
    by_cases hn : n = i
    · right
      refine ⟨row0, List.getElem?_mem hg, ?_⟩
      simp [hn] at hi
      exact hi.symm
    · left
      simp [hn] at hi
      exact hi ▸ List.getElem?_mem hg

/-- The loop only ever writes the fill cell: grid consistency is
preserved. -/
theorem floodFillLoop_consistent (g : Grid) (orig : String) (nc : LegoColor)
    (palette : List LegoColor) (hnc : nc ∈ palette) :
    ∀ (fuel : Nat) (queue visited : List (Int × Int)) (out : Grid),
      Consistent palette out →
      Consistent palette (floodFillLoop g orig nc fuel queue visited out).1 := by
  intro fuel
  induction fuel with
  | zero => intro queue visited out h; exact h
  | succ fuel ih =>
    intro queue visited out h
    rcases queue with _ | ⟨⟨r, c⟩, rest⟩
    · exact h
    rw [floodFillLoop]
    split_ifs with h1 h2 h3
    · exact ih _ _ _ h
    · exact ih _ _ _ h
    · exact ih _ _ _ h
    · apply ih
      intro row hrow cell hcell
      rcases mem_of_mem_modify hrow with hr | ⟨row0, hr0, hreq⟩
      · exact h row hr cell hcell
      · subst hreq
        rcases List.mem_or_eq_of_mem_set hcell with hc | hc
        · exact h row0 hr0 cell hc
        · exact ⟨nc, hnc, hc⟩

/-- Consistency is preserved by the cell rewriting of `handleColorSelect`. -/
theorem overwrite_consistent (palette : List LegoColor) (color : LegoColor)
    (hmem : color ∈ palette) :
    ∀ (sel : List (Nat × Nat)) (g : Grid), Consistent palette g →
      Consistent palette (overwriteCells g sel color) := by
  intro sel
  induction sel with
  | nil => intro g h; exact h
  | cons p rest ih =>
    intro g h
    show Consistent palette
      (List.foldl
        (fun acc q =>
          if q.1 < acc.length ∧ q.2 < (acc.headD []).length then
            setCell acc q.1 q.2 (cellOfColor color)
          else acc)
        g (p :: rest))
    rw [List.foldl_cons]
    apply ih
    by_cases hb : p.1 < g.length ∧ p.2 < (g.headD []).length
    · rw [if_pos hb]
      intro row hrow cell hcell
      rcases mem_of_mem_modify hrow with hr | ⟨row0, hr0, hreq⟩
      · exact h row hr cell hcell
      · subst hreq
        rcases List.mem_or_eq_of_mem_set hcell with hc | hc
        · exact h row0 hr0 cell hc
        · exact ⟨color, hmem, hc⟩
    · rw [if_neg hb]
      exact h

/-! ## Claim theorems: flood fill -/

/-- Claim C1: for every rectangular grid, every in-bounds start cell, and
every color whose id differs from the start cell color id, `floodFill`
returns a grid in which exactly the cells of the maximal 4-connected
region sharing the start cell color id are overwritten (all four fields)
from the color, and every cell outside the region is unchanged; on the
concrete 2 x 2 all-`A` grid, filling from (0,0) with `B` yields the
all-`B` grid whose aggregation is the single item `B` with quantity 4. -/
theorem floodFill_fills_connected_region :
    (∀ (g : Grid) (r c : Int) (nc : LegoColor),
      Rect g → ¬ outOfBounds g r c → colorIdAt g r c ≠ some nc.id →
      ∃ g2, floodFill g r c nc = some g2 ∧
        (∀ p, Region g (r, c) p → cellAt g2 p.1 p.2 = some (cellOfColor nc)) ∧
        (∀ p, ¬ Region g (r, c) p → cellAt g2 p.1 p.2 = cellAt g p.1 p.2)) ∧
    floodFill gridAA 0 0 colorB = some gridBB ∧
    recalculateShoppingList gridBB =
      [{ colorId := "B", colorName := "color B", rgb := (7, 7, 7), hex := "#B",
         quantity := 4 }] := by
  refine ⟨?_, by decide, ?_⟩
  case refine_2 =>
    have h1 : countColors gridBB =
        [{ colorId := "B", colorName := "color B", rgb := (7, 7, 7), hex := "#B",
           quantity := 4 }] := by decide
    unfold recalculateShoppingList
    rw [h1, List.mergeSort_of_sorted (by simp)]
  intro g r c nc hrect hin hne
  obtain ⟨cell, hcell⟩ := cellAt_isSome_of_inb hrect hin
  have horig : colorIdAt g r c = some cell.colorId := by
    unfold colorIdAt; rw [hcell]; rfl
  have hdiff : cell.colorId ≠ nc.id := fun h => hne (h ▸ horig)
  obtain ⟨out2, V, heq, hnodup, hiff, hvis, hrest⟩ :=
    floodFillRun_spec g r c cell.colorId nc hrect horig
  refine ⟨out2, ?_, ?_, ?_⟩
  · unfold floodFill
    rw [horig]
    simp only [if_neg hdiff]
    rw [heq]
  · intro p hp
    exact hvis p ((hiff p).mpr hp)
  · intro p hp
    have hv : p ∉ V := fun hv => hp ((hiff p).mp hv)
    obtain ⟨a, b⟩ := p
    exact hrest a b hv

/-- Witness for C1: the hypotheses hold for the 2 x 2 all-`A` grid, start
(0,0), and fill color `B`, and the theorem applies there. -/
theorem floodFill_fills_connected_region_witness :
    (Rect gridAA ∧ ¬ outOfBounds gridAA 0 0 ∧ colorIdAt gridAA 0 0 ≠ some colorB.id) ∧
    (∃ g2, floodFill gridAA 0 0 colorB = some g2 ∧
      (∀ p, Region gridAA (0, 0) p → cellAt g2 p.1 p.2 = some (cellOfColor colorB)) ∧
      (∀ p, ¬ Region gridAA (0, 0) p → cellAt g2 p.1 p.2 = cellAt gridAA p.1 p.2)) :=
  ⟨⟨by decide, by decide, by decide⟩,
    floodFill_fills_connected_region.1 gridAA 0 0 colorB (by decide) (by decide) (by decide)⟩

/-- Counterexample to C7 as stated: the first line of `floodFill` reads
`grid[startRow][startCol].colorId` before any bounds check, so on a 1 x 1
grid the out-of-bounds starts (1,0) and (-1,0) dereference `undefined`
(modelled by `none`) instead of returning a grid. -/
theorem floodFill_oob_start_crashes :
    floodFill (grid1 0) 1 0 colorB = none ∧ floodFill (grid1 0) (-1) 0 colorB = none := by
  constructor <;> decide

/-- Claim C7 (amended): the traversal itself bound-checks every popped
coordinate before dereferencing and visits each cell at most once (the
visited set is duplicate-free), and `floodFill` is total for every
in-bounds start; only the unguarded initial read of the start cell can go
out of bounds. -/
theorem floodFill_total_on_inbounds_starts :
    ∀ (g : Grid) (r c : Int) (nc : LegoColor),
      Rect g → ¬ outOfBounds g r c →
      (∃ g2, floodFill g r c nc = some g2) ∧ (floodFillVisited g r c nc).Nodup := by
  intro g r c nc hrect hin
  obtain ⟨cell, hcell⟩ := cellAt_isSome_of_inb hrect hin
  have horig : colorIdAt g r c = some cell.colorId := by
    unfold colorIdAt; rw [hcell]; rfl
  by_cases hsame : cell.colorId = nc.id
  · constructor
    · refine ⟨g, ?_⟩
      unfold floodFill
      rw [horig]
      simp [hsame]
    · unfold floodFillVisited
      rw [horig]
      simp [hsame]
  · obtain ⟨out2, V, heq, hnodup, hiff, hvis, hrest⟩ :=
      floodFillRun_spec g r c cell.colorId nc hrect horig
    constructor
    · refine ⟨out2, ?_⟩
      unfold floodFill
      rw [horig]
      simp only [if_neg hsame]
      rw [heq]
    · unfold floodFillVisited
      rw [horig]
      simp only [if_neg hsame]
      rw [heq]
      exact hnodup

/-- Witness for the amended C7 at the 2 x 2 grid and start (1,1). -/
theorem floodFill_total_on_inbounds_starts_witness :
    (Rect gridAA ∧ ¬ outOfBounds gridAA 1 1) ∧
    ((∃ g2, floodFill gridAA 1 1 colorB = some g2) ∧
      (floodFillVisited gridAA 1 1 colorB).Nodup) :=
  ⟨⟨by decide, by decide⟩,
    floodFill_total_on_inbounds_starts gridAA 1 1 colorB (by decide) (by decide)⟩

/-- Claim C9: on the same frozen grid, the fill-tool click selection
(`handleCellClick`) selects exactly the cells that `floodFill` recolors:
membership in the computed connected set coincides with the cell changing
between the input grid and the flood-filled grid. -/
theorem fill_click_selection_eq_floodFill :
    ∀ (g : Grid) (r c : Int) (nc : LegoColor),
      Rect g → ¬ outOfBounds g r c → colorIdAt g r c ≠ some nc.id →
      ∃ region g2, connectedCells g r c = some region ∧ floodFill g r c nc = some g2 ∧
        (∀ p, p ∈ region ↔ cellAt g2 p.1 p.2 ≠ cellAt g p.1 p.2) := by
  intro g r c nc hrect hin hne
  obtain ⟨cell, hcell⟩ := cellAt_isSome_of_inb hrect hin
  have horig : colorIdAt g r c = some cell.colorId := by
    unfold colorIdAt; rw [hcell]; rfl
  have hdiff : cell.colorId ≠ nc.id := fun h => hne (h ▸ horig)
  obtain ⟨out2, V, heq, hnodup, hiff, hvis, hrest⟩ :=
    floodFillRun_spec g r c cell.colorId nc hrect horig
  refine ⟨selectLoop g cell.colorId (floodFillFuel g) [(r, c)] [], out2, ?_, ?_, ?_⟩
  · unfold connectedCells
    rw [horig]
  · unfold floodFill
    rw [horig]
    simp only [if_neg hdiff]
    rw [heq]
  · have hsel : selectLoop g cell.colorId (floodFillFuel g) [(r, c)] [] = V := by
      rw [selectLoop_eq g cell.colorId nc (floodFillFuel g) [(r, c)] [] (deepCopyGrid g), heq]
    rw [hsel]
    intro p
    rw [hiff p]
    constructor
    · intro hreg
      have h2 := hvis p ((hiff p).mpr hreg)
      have hcol : colorIdAt g p.1 p.2 = some cell.colorId := by
        rw [region_color hreg, horig]
      rw [h2]
      intro heq2
      unfold colorIdAt at hcol
      rw [← heq2] at hcol
      simp [cellOfColor] at hcol
      exact hdiff hcol.symm
    · intro hne2
      by_contra hreg
      have hv : p ∉ V := fun hv => hreg ((hiff p).mp hv)
      obtain ⟨a, b⟩ := p
      exact hne2 (hrest a b hv)

/-- Witness for C9 at the 2 x 2 all-`A` grid, start (0,0), color `B`. -/
theorem fill_click_selection_eq_floodFill_witness :
    (Rect gridAA ∧ ¬ outOfBounds gridAA 0 0 ∧ colorIdAt gridAA 0 0 ≠ some colorB.id) ∧
    (∃ region g2, connectedCells gridAA 0 0 = some region ∧
      floodFill gridAA 0 0 colorB = some g2 ∧
      (∀ p, p ∈ region ↔ cellAt g2 p.1 p.2 ≠ cellAt gridAA p.1 p.2)) :=
  ⟨⟨by decide, by decide, by decide⟩,
    fill_click_selection_eq_floodFill gridAA 0 0 colorB (by decide) (by decide) (by decide)⟩

/-- Claim C8: both grid-mutating edit operations (the brush rewriting of
`handleColorSelect` and the flood fill) preserve cell consistency with
the palette, provided the applied color is a palette color: all four cell
fields are always copied together from one color. -/
theorem edit_operations_preserve_consistency :
    ∀ (palette : List LegoColor) (g : Grid) (color : LegoColor),
      Consistent palette g → color ∈ palette →
      (∀ sel : List (Nat × Nat), Consistent palette (overwriteCells g sel color)) ∧
      (∀ (r c : Int) (g2 : Grid), floodFill g r c color = some g2 →
        Consistent palette g2) := by
  intro palette g color h hmem
  refine ⟨fun sel => overwrite_consistent palette color hmem sel g h, ?_⟩
  intro r c g2 hff
  unfold floodFill at hff
  split at hff
  · exact absurd hff (by simp)
  · rename_i orig hm
    split at hff
    · injection hff with h2
      rw [← h2]
      exact h
    · injection hff with h2
      rw [← h2]
      apply floodFillLoop_consistent g orig color palette hmem
      rw [deepCopyGrid_eq]
      exact h

/-- Witness for C8: the all-`A` grid is consistent with the palette
`[A, B]`, `B` is in the palette, and the theorem applies there. -/
theorem edit_operations_preserve_consistency_witness :
    (Consistent [colorA, colorB] gridAA ∧ colorB ∈ [colorA, colorB]) ∧
    ((∀ sel : List (Nat × Nat),
        Consistent [colorA, colorB] (overwriteCells gridAA sel colorB)) ∧
      (∀ (r c : Int) (g2 : Grid), floodFill gridAA r c colorB = some g2 →
        Consistent [colorA, colorB] g2)) :=
  ⟨⟨by decide, by decide⟩,
    edit_operations_preserve_consistency [colorA, colorB] gridAA colorB
      (by decide) (by decide)⟩

/-! ## Claim theorems: edit session -/

/-- Claim C10: `extractColorsFromShoppingList` carries the four fields of
each item over positionally and sets `pickABrickAvailable` to `true` for
every color unconditionally, so actual availability information is not
preserved. -/
theorem extractColors_forces_available :
    ∀ sl : List ShoppingListItem,
      (extractColorsFromShoppingList sl).length = sl.length ∧
      (∀ (i : Nat) (color : LegoColor) (item : ShoppingListItem),
        (extractColorsFromShoppingList sl)[i]? = some color → sl[i]? = some item →
        color.id = item.colorId ∧ color.name = item.colorName ∧ color.rgb = item.rgb ∧
        color.hex = item.hex ∧ color.pickABrickAvailable = true) := by
  intro sl
  constructor
  · simp [extractColorsFromShoppingList]
  · intro i color item h1 h2
    unfold extractColorsFromShoppingList at h1
    rw [List.getElem?_map, h2] at h1
    injection h1 with h1
    rw [← h1]
    exact ⟨rfl, rfl, rfl, rfl, rfl⟩

/-- Witness for C10 at a one-item list whose source availability is
`false`: the produced color still has `pickABrickAvailable = true`. -/
theorem extractColors_forces_available_witness :
    (extractColorsFromShoppingList
        [{ colorId := "X", colorName := "x", rgb := (1, 2, 3), hex := "#x",
           quantity := 9 }]).length = 1 ∧
    (∀ (i : Nat) (color : LegoColor) (item : ShoppingListItem),
      (extractColorsFromShoppingList
        [{ colorId := "X", colorName := "x", rgb := (1, 2, 3), hex := "#x",
           quantity := 9 }])[i]? = some color →
      [({ colorId := "X", colorName := "x", rgb := (1, 2, 3), hex := "#x",
           quantity := 9 } : ShoppingListItem)][i]? = some item →
      color.id = item.colorId ∧ color.name = item.colorName ∧ color.rgb = item.rgb ∧
      color.hex = item.hex ∧ color.pickABrickAvailable = true) :=
  extractColors_forces_available
    [{ colorId := "X", colorName := "x", rgb := (1, 2, 3), hex := "#x", quantity := 9 }]

/-- Claim C5: if the start cell already has the selected color id,
`floodFill` returns the grid unchanged and `applyFill` pushes no history
entry: the session (in particular history length and cursor) is
unchanged. -/
theorem applyFill_same_color_noop :
    ∀ (s : EditorSession) (r c : Int) (color : LegoColor),
      s.selectedColor = some color →
      colorIdAt s.editedGrid r c = some color.id →
      floodFill s.editedGrid r c color = some s.editedGrid ∧
      applyFill r c s = some s ∧
      (applyFill r c s).map (fun t => (t.history.length, t.historyIndex)) =
        some (s.history.length, s.historyIndex) := by
  intro s r c color hsel hcol
  have hff : floodFill s.editedGrid r c color = some s.editedGrid := by
    unfold floodFill
    rw [hcol]
    simp
  have hap : applyFill r c s = some s := by
    unfold applyFill
    simp [hsel, hff, hcol]
  exact ⟨hff, hap, by rw [hap]; rfl⟩

/-- Witness for C5: the fresh session on the all-`A` grid with `A`
selected, clicking (0,0). -/
theorem applyFill_same_color_noop_witness :
    (sessionAA.selectedColor = some colorA ∧
      colorIdAt sessionAA.editedGrid 0 0 = some colorA.id) ∧
    (floodFill sessionAA.editedGrid 0 0 colorA = some sessionAA.editedGrid ∧
      applyFill 0 0 sessionAA = some sessionAA ∧
      (applyFill 0 0 sessionAA).map (fun t => (t.history.length, t.historyIndex)) =
        some (sessionAA.history.length, sessionAA.historyIndex)) :=
  ⟨⟨by decide, by decide⟩,
    applyFill_same_color_noop sessionAA 0 0 colorA (by decide) (by decide)⟩

/-- Claim C4: a fresh session has history length 1 and cursor 0 and
`undo` is a no-op on it; after one color application, `undo` restores the
pre-edit grid and `redo` then restores the post-edit grid; `redo` is a
no-op whenever the cursor sits at the last history index. -/
theorem undo_redo_roundtrip :
    ∀ (g : Grid) (color : LegoColor) (r c : Nat),
      (enterEditMode g).history.length = 1 ∧
      (enterEditMode g).historyIndex = 0 ∧
      undo (enterEditMode g) = enterEditMode g ∧
      (undo (handleColorSelect color (startPainting r c (enterEditMode g)))).editedGrid = g ∧
      (redo (undo (handleColorSelect color (startPainting r c (enterEditMode g))))).editedGrid =
        (handleColorSelect color (startPainting r c (enterEditMode g))).editedGrid ∧
      (∀ s : EditorSession, s.historyIndex = s.history.length - 1 → redo s = s) := by
  intro g color r c
  refine ⟨by simp [enterEditMode], rfl, ?_, ?_, ?_, ?_⟩
  · unfold undo enterEditMode
    simp
  · simp [enterEditMode, startPainting, handleColorSelect, applyColorToSelectedCells,
      addToHistory, undo, deepCopyGrid_eq, MAX_HISTORY_SIZE]
  · simp [enterEditMode, startPainting, handleColorSelect, applyColorToSelectedCells,
      addToHistory, undo, redo, deepCopyGrid_eq, MAX_HISTORY_SIZE]
  · intro s hs
    unfold redo
    rw [if_neg]
    intro hcon
    omega

/-- Witness for C4 at the all-`A` grid, color `B`, cell (0,0). -/
theorem undo_redo_roundtrip_witness :
    (enterEditMode gridAA).history.length = 1 ∧
    (enterEditMode gridAA).historyIndex = 0 ∧
    undo (enterEditMode gridAA) = enterEditMode gridAA ∧
    (undo (handleColorSelect colorB (startPainting 0 0 (enterEditMode gridAA)))).editedGrid =
      gridAA ∧
    (redo (undo (handleColorSelect colorB
        (startPainting 0 0 (enterEditMode gridAA))))).editedGrid =
      (handleColorSelect colorB (startPainting 0 0 (enterEditMode gridAA))).editedGrid ∧
    (∀ s : EditorSession, s.historyIndex = s.history.length - 1 → redo s = s) :=
  undo_redo_roundtrip gridAA colorB 0 0

set_option maxRecDepth 100000 in
/-- Claim C3 records the intended eviction behaviour, and the code
violates its final clause: starting from a fresh session, 49 edits fill
the history (length 50, cursor 49); the 50th edit evicts the oldest entry
but sets the cursor to 48 — the second-to-last entry — instead of the
newly pushed last entry (index 49), making redo possible immediately
after a push (contradicting the source comment that no redo is possible
after a new change).  The length cap itself holds: 60 edits leave exactly
50 entries. -/
theorem history_eviction_cursor_bug :
    (sessionAfter 49).history.length = 50 ∧
    (sessionAfter 49).historyIndex = 49 ∧
    (sessionAfter 50).history.length = 50 ∧
    (sessionAfter 50).historyIndex = 48 ∧
    (sessionAfter 50).historyIndex ≠ (sessionAfter 50).history.length - 1 ∧
    canRedo (sessionAfter 50) = true ∧
    (sessionAfter 60).history.length = 50 := by
  decide

/-- Row-width transfer through a shape equality, for the first row. -/
theorem headD_length_of_shape {g h : Grid} (hs : gridShape h = gridShape g) :
    (h.headD []).length = (g.headD []).length := by
  cases h with
  | nil =>
    cases g with
    | nil => rfl
    | cons a as => simp [gridShape] at hs
  | cons b bs =>
    cases g with
    | nil => simp [gridShape] at hs
    | cons a as =>
      simp only [gridShape, List.map_cons, List.cons.injEq] at hs
      simp [hs.1]

/-- Rectangularity transfers through a shape equality. -/
theorem rect_of_shape {g h : Grid} (hs : gridShape h = gridShape g) (hr : Rect g) :
    Rect h := by
  intro row hrow
  obtain ⟨i, hi⟩ := List.mem_iff_getElem?.mp hrow
  have h1 := congrArg (fun l => l[i]?) hs
  simp only [gridShape, List.getElem?_map] at h1
  rw [hi] at h1
  cases hg : g[i]? with
  | none => rw [hg] at h1; simp at h1
  | some grow =>
    rw [hg] at h1
    simp at h1
    have h2 := hr grow (List.getElem?_mem hg)
    unfold gridCols at h2 ⊢
    rw [headD_length_of_shape hs]
    omega

/-- Characterization of the brush rewriting of `handleColorSelect`: the
selected in-bounds cells are overwritten from the color, everything else
is untouched, and the grid shape is preserved. -/
theorem overwriteCells_spec (color : LegoColor) :
    ∀ (sel : List (Nat × Nat)) (g : Grid), Rect g →
      gridShape (overwriteCells g sel color) = gridShape g ∧
      ∀ r c : Nat,
        cellAt (overwriteCells g sel color) (r : Int) (c : Int) =
          if (r, c) ∈ sel ∧ r < g.length ∧ c < (g.headD []).length
          then some (cellOfColor color) else cellAt g (r : Int) (c : Int) := by
  intro sel
  induction sel with
  | nil =>
    intro g hrect
    refine ⟨rfl, ?_⟩
    intro r c
    have hno : ¬((r, c) ∈ ([] : List (Nat × Nat)) ∧
        r < g.length ∧ c < (g.headD []).length) := by
      rintro ⟨h, _⟩
      simp at h
    rw [if_neg hno]
    rfl
  | cons p rest ih =>
    obtain ⟨p1, p2⟩ := p
    intro g hrect
    by_cases hb : p1 < g.length ∧ p2 < (g.headD []).length
    · have hstep : overwriteCells g ((p1, p2) :: rest) color =
          overwriteCells (setCell g p1 p2 (cellOfColor color)) rest color := by
        unfold overwriteCells
        rw [List.foldl_cons, if_pos hb]
      have hshape1 : gridShape (setCell g p1 p2 (cellOfColor color)) = gridShape g :=
        gridShape_setCell g p1 p2 (cellOfColor color)
      have hrect1 : Rect (setCell g p1 p2 (cellOfColor color)) :=
        rect_of_shape hshape1 hrect
      obtain ⟨ihs, ihc⟩ := ih (setCell g p1 p2 (cellOfColor color)) hrect1
      have hlen1 : (setCell g p1 p2 (cellOfColor color)).length = g.length :=
        length_of_shape hshape1
      have hhead1 : ((setCell g p1 p2 (cellOfColor color)).headD []).length =
          (g.headD []).length := headD_length_of_shape hshape1
      refine ⟨by rw [hstep, ihs, hshape1], ?_⟩
      intro r c
      rw [hstep, ihc r c, hlen1, hhead1]
      by_cases hbc : r < g.length ∧ c < (g.headD []).length
      · by_cases hmem : (r, c) ∈ rest
        · rw [if_pos ⟨hmem, hbc.1, hbc.2⟩,
            if_pos ⟨List.mem_cons_of_mem (p1, p2) hmem, hbc.1, hbc.2⟩]
        · by_cases hp : (r, c) = (p1, p2)
          · obtain ⟨hp1, hp2⟩ := Prod.mk.injEq .. ▸ hp
            subst hp1
            subst hp2
            rw [if_neg (fun hcon => hmem hcon.1),
              if_pos ⟨List.mem_cons_self _ _, hbc.1, hbc.2⟩]
            have hcast1 : ((r : Int)).toNat = r := by omega
            have hcast2 : ((c : Int)).toNat = c := by omega
            rw [show setCell g r c (cellOfColor color) =
                setCell g ((r : Int)).toNat ((c : Int)).toNat (cellOfColor color) by
              rw [hcast1, hcast2]]
            apply cellAt_setCell_self
            · omega
            · omega
            · rw [hcast1]; exact hbc.1
            · intro row hrow
              have hmemrow : row ∈ g := List.getElem?_mem hrow
              have hrl := hrect row hmemrow
              unfold gridCols at hrl
              omega
          · rw [if_neg (fun hcon => hmem hcon.1)]
            have hno : ¬((r, c) ∈ (p1, p2) :: rest ∧
                r < g.length ∧ c < (g.headD []).length) := by
              rintro ⟨hm, _, _⟩
              rcases List.mem_cons.mp hm with h | h
              · exact hp h
              · exact hmem h
            rw [if_neg hno]
            apply cellAt_setCell_ne
            rintro ⟨h1, h2⟩
            apply hp
            simp only [Prod.mk.injEq]
            constructor <;> omega
      · rw [if_neg (fun hcon => hbc ⟨hcon.2.1, hcon.2.2⟩),
          if_neg (fun hcon => hbc ⟨hcon.2.1, hcon.2.2⟩)]
        apply cellAt_setCell_ne
        rintro ⟨h1, h2⟩
        exact hbc ⟨by omega, by omega⟩
    · have hstep : overwriteCells g ((p1, p2) :: rest) color = overwriteCells g rest color := by
        unfold overwriteCells
        rw [List.foldl_cons, if_neg hb]
      obtain ⟨ihs, ihc⟩ := ih g hrect
      refine ⟨by rw [hstep, ihs], ?_⟩
      intro r c
      rw [hstep, ihc r c]
      by_cases hcond : (r, c) ∈ rest ∧ r < g.length ∧ c < (g.headD []).length
      · rw [if_pos hcond,
          if_pos ⟨List.mem_cons_of_mem (p1, p2) hcond.1, hcond.2.1, hcond.2.2⟩]
      · rw [if_neg hcond]
        have hno : ¬((r, c) ∈ (p1, p2) :: rest ∧
            r < g.length ∧ c < (g.headD []).length) := by
          rintro ⟨hm, hB1, hB2⟩
          rcases List.mem_cons.mp hm with h | h
          · apply hb
            have h1 : r = p1 := congrArg Prod.fst h
            have h2 : c = p2 := congrArg Prod.snd h
            omega
          · exact hcond ⟨h, hB1, hB2⟩
        rw [if_neg hno]

/-- Closed form of `addToHistory`. -/
theorem addToHistory_eq (g : Grid) (s : EditorSession) :
    addToHistory g s =
      if MAX_HISTORY_SIZE < (s.history.take (s.historyIndex + 1) ++ [g]).length then
        { s with history := (s.history.take (s.historyIndex + 1) ++ [g]).tail,
                 historyIndex := s.historyIndex - 1 }
      else
        { s with history := s.history.take (s.historyIndex + 1) ++ [g],
                 historyIndex := (s.history.take (s.historyIndex + 1) ++ [g]).length - 1 } := by
  unfold addToHistory
  rw [deepCopyGrid_eq]

/-- Claim C6 (amended): applying a color to a nonempty selection
overwrites every selected in-bounds cell from the color, leaves every
other cell unchanged, clears the selection, and pushes the grid after
truncating the redo tail; the cursor advances to the new last entry when
the push stays within the 50-snapshot capacity, while a push at capacity
evicts the oldest entry and decrements the cursor (which then points at
the second-to-last entry — see the history eviction bug).  An empty
selection is a no-op with no history push. -/
theorem apply_color_to_selection_spec :
    ∀ (s : EditorSession) (color : LegoColor),
      Rect s.editedGrid →
      s.historyIndex < s.history.length →
      s.history.length ≤ MAX_HISTORY_SIZE →
      (s.selectedCells = [] → handleColorSelect color s = s) ∧
      (s.selectedCells ≠ [] →
        (handleColorSelect color s).editedGrid =
          overwriteCells s.editedGrid s.selectedCells color ∧
        (handleColorSelect color s).selectedCells = [] ∧
        (∀ r c : Nat,
          ((r, c) ∈ s.selectedCells ∧ r < s.editedGrid.length ∧
              c < gridCols s.editedGrid) →
            cellAt (overwriteCells s.editedGrid s.selectedCells color) (r : Int) (c : Int) =
              some (cellOfColor color)) ∧
        (∀ r c : Nat,
          ¬((r, c) ∈ s.selectedCells ∧ r < s.editedGrid.length ∧
              c < gridCols s.editedGrid) →
            cellAt (overwriteCells s.editedGrid s.selectedCells color) (r : Int) (c : Int) =
              cellAt s.editedGrid (r : Int) (c : Int)) ∧
        (s.historyIndex + 2 ≤ MAX_HISTORY_SIZE →
          (handleColorSelect color s).history =
            s.history.take (s.historyIndex + 1) ++
              [overwriteCells s.editedGrid s.selectedCells color] ∧
          (handleColorSelect color s).historyIndex = s.historyIndex + 1 ∧
          (handleColorSelect color s).historyIndex =
            (handleColorSelect color s).history.length - 1) ∧
        (MAX_HISTORY_SIZE < s.historyIndex + 2 →
          (handleColorSelect color s).history =
            (s.history.take (s.historyIndex + 1) ++
              [overwriteCells s.editedGrid s.selectedCells color]).tail ∧
          (handleColorSelect color s).historyIndex = s.historyIndex - 1)) := by
  intro s color hrect hidx hcap
  constructor
  · intro hemp
    unfold handleColorSelect
    simp [hemp]
  · intro hne
    obtain ⟨hshape, hcells⟩ := overwriteCells_spec color s.selectedCells s.editedGrid hrect
    have hhcs : handleColorSelect color s =
        { addToHistory (overwriteCells s.editedGrid s.selectedCells color)
            { s with editedGrid := overwriteCells s.editedGrid s.selectedCells color } with
          selectedCells := [] } := by
      unfold handleColorSelect applyColorToSelectedCells
      rw [if_pos hne]
    have hNH : (s.history.take (s.historyIndex + 1) ++
        [overwriteCells s.editedGrid s.selectedCells color]).length =
        s.historyIndex + 2 := by
      simp only [List.length_append, List.length_take, List.length_cons, List.length_nil]
      omega
    refine ⟨?_, ?_, ?_, ?_, ?_, ?_⟩
    · rw [hhcs, addToHistory_eq]
      split_ifs <;> rfl
    · rw [hhcs]
    · intro r c hc
      have hc2 : (r, c) ∈ s.selectedCells ∧ r < s.editedGrid.length ∧
          c < (s.editedGrid.headD []).length := hc
      rw [hcells r c, if_pos hc2]
    · intro r c hc
      have hc2 : ¬((r, c) ∈ s.selectedCells ∧ r < s.editedGrid.length ∧
          c < (s.editedGrid.headD []).length) := hc
      rw [hcells r c, if_neg hc2]
    · intro hsmall
      rw [hhcs, addToHistory_eq]
      rw [if_neg (by rw [hNH]; omega)]
      refine ⟨rfl, ?_, ?_⟩
      · show (s.history.take (s.historyIndex + 1) ++
            [overwriteCells s.editedGrid s.selectedCells color]).length - 1 =
          s.historyIndex + 1
        rw [hNH]
        omega
      · show (s.history.take (s.historyIndex + 1) ++
            [overwriteCells s.editedGrid s.selectedCells color]).length - 1 =
          (s.history.take (s.historyIndex + 1) ++
            [overwriteCells s.editedGrid s.selectedCells color]).length - 1
        rfl
    · intro hbig
      rw [hhcs, addToHistory_eq]
      rw [if_pos (by rw [hNH]; exact hbig)]
      exact ⟨rfl, rfl⟩

set_option maxRecDepth 100000 in
/-- Counterexample to C6 as stated: on a session at capacity
(50 history entries, cursor 49, reached by 49 edits from a fresh
session), applying a color to a nonempty selection leaves the cursor at
48 — it is not advanced, and it does not point at the pushed last entry
(index 49). -/
theorem apply_color_at_capacity_no_advance :
    (startPainting 0 0 (sessionAfter 49)).selectedCells ≠ [] ∧
    (sessionAfter 49).historyIndex = 49 ∧
    (sessionAfter 49).history.length = 50 ∧
    (handleColorSelect colorB (startPainting 0 0 (sessionAfter 49))).historyIndex = 48 ∧
    (handleColorSelect colorB (startPainting 0 0 (sessionAfter 49))).history.length = 50 := by
  decide

/-- Witness for the amended C6: a fresh session on the all-`A` grid with
cell (0,0) selected satisfies the hypotheses, and the theorem applies. -/
theorem apply_color_to_selection_spec_witness :
    (Rect (startPainting 0 0 (enterEditMode gridAA)).editedGrid ∧
      (startPainting 0 0 (enterEditMode gridAA)).historyIndex <
        (startPainting 0 0 (enterEditMode gridAA)).history.length ∧
      (startPainting 0 0 (enterEditMode gridAA)).history.length ≤ MAX_HISTORY_SIZE) ∧
    ((startPainting 0 0 (enterEditMode gridAA)).selectedCells ≠ [] →
      (handleColorSelect colorB (startPainting 0 0 (enterEditMode gridAA))).editedGrid =
        overwriteCells (startPainting 0 0 (enterEditMode gridAA)).editedGrid
          (startPainting 0 0 (enterEditMode gridAA)).selectedCells colorB ∧
      (handleColorSelect colorB (startPainting 0 0 (enterEditMode gridAA))).selectedCells =
        [] ∧
      (∀ r c : Nat,
        ((r, c) ∈ (startPainting 0 0 (enterEditMode gridAA)).selectedCells ∧
            r < (startPainting 0 0 (enterEditMode gridAA)).editedGrid.length ∧
            c < gridCols (startPainting 0 0 (enterEditMode gridAA)).editedGrid) →
          cellAt (overwriteCells (startPainting 0 0 (enterEditMode gridAA)).editedGrid
              (startPainting 0 0 (enterEditMode gridAA)).selectedCells colorB)
            (r : Int) (c : Int) = some (cellOfColor colorB)) ∧
      (∀ r c : Nat,
        ¬((r, c) ∈ (startPainting 0 0 (enterEditMode gridAA)).selectedCells ∧
            r < (startPainting 0 0 (enterEditMode gridAA)).editedGrid.length ∧
            c < gridCols (startPainting 0 0 (enterEditMode gridAA)).editedGrid) →
          cellAt (overwriteCells (startPainting 0 0 (enterEditMode gridAA)).editedGrid
              (startPainting 0 0 (enterEditMode gridAA)).selectedCells colorB)
            (r : Int) (c : Int) =
            cellAt (startPainting 0 0 (enterEditMode gridAA)).editedGrid
              (r : Int) (c : Int)) ∧
      ((startPainting 0 0 (enterEditMode gridAA)).historyIndex + 2 ≤ MAX_HISTORY_SIZE →
        (handleColorSelect colorB (startPainting 0 0 (enterEditMode gridAA))).history =
          (startPainting 0 0 (enterEditMode gridAA)).history.take
              ((startPainting 0 0 (enterEditMode gridAA)).historyIndex + 1) ++
            [overwriteCells (startPainting 0 0 (enterEditMode gridAA)).editedGrid
              (startPainting 0 0 (enterEditMode gridAA)).selectedCells colorB] ∧
        (handleColorSelect colorB (startPainting 0 0 (enterEditMode gridAA))).historyIndex =
          (startPainting 0 0 (enterEditMode gridAA)).historyIndex + 1 ∧
        (handleColorSelect colorB (startPainting 0 0 (enterEditMode gridAA))).historyIndex =
          (handleColorSelect colorB
              (startPainting 0 0 (enterEditMode gridAA))).history.length - 1) ∧
      (MAX_HISTORY_SIZE < (startPainting 0 0 (enterEditMode gridAA)).historyIndex + 2 →
        (handleColorSelect colorB (startPainting 0 0 (enterEditMode gridAA))).history =
          ((startPainting 0 0 (enterEditMode gridAA)).history.take
              ((startPainting 0 0 (enterEditMode gridAA)).historyIndex + 1) ++
            [overwriteCells (startPainting 0 0 (enterEditMode gridAA)).editedGrid
              (startPainting 0 0 (enterEditMode gridAA)).selectedCells colorB]).tail ∧
        (handleColorSelect colorB (startPainting 0 0 (enterEditMode gridAA))).historyIndex =
          (startPainting 0 0 (enterEditMode gridAA)).historyIndex - 1)) :=
  ⟨⟨by decide, by decide, by decide⟩,
    (apply_color_to_selection_spec (startPainting 0 0 (enterEditMode gridAA)) colorB
      (by decide) (by decide) (by decide)).2⟩

/-! ## Claim theorems: shopping-list aggregation -/

/-- One counting step: the id sequence is unchanged when the color id is
already present, and extended at the back otherwise. -/
theorem bump_ids (acc : List ShoppingListItem) (cell : MosaicGridCell) :
    (bumpColor acc cell).map (·.colorId) =
      if cell.colorId ∈ acc.map (·.colorId) then acc.map (·.colorId)
      else acc.map (·.colorId) ++ [cell.colorId] := by
  induction acc with
  | nil => simp [bumpColor]
  | cons item rest ih =>
    by_cases h : item.colorId = cell.colorId
    · rw [bumpColor, if_pos h]
      have hm : cell.colorId ∈ (item :: rest).map (·.colorId) := by
        simp [h.symm]
      rw [if_pos hm]
      simp
    · rw [bumpColor, if_neg h]
      simp only [List.map_cons]
      rw [ih]
      by_cases h2 : cell.colorId ∈ rest.map (·.colorId)
      · rw [if_pos h2, if_pos (by simp [h2])]
      · rw [if_neg h2, if_neg ?hno]
        case hno =>
          simp only [List.mem_cons]
          rintro (h3 | h3)
          · exact h h3.symm
          · exact h2 h3
        simp

/-- One counting step adds exactly one to the total quantity. -/
theorem bump_sum (acc : List ShoppingListItem) (cell : MosaicGridCell) :
    ((bumpColor acc cell).map (·.quantity)).sum = ((acc.map (·.quantity)).sum) + 1 := by
  induction acc with
  | nil => simp [bumpColor]
  | cons item rest ih =>
    by_cases h : item.colorId = cell.colorId
    · simp [bumpColor, h]
      omega
    · simp [bumpColor, h, ih]
      omega

/-- The counting fold adds the number of processed cells to the total. -/
theorem fold_sum (cells : List MosaicGridCell) :
    ∀ acc : List ShoppingListItem,
      ((cells.foldl bumpColor acc).map (·.quantity)).sum =
        ((acc.map (·.quantity)).sum) + cells.length := by
  induction cells with
  | nil => intro acc; simp
  | cons cell rest ih =>
    intro acc
    rw [List.foldl_cons, ih, bump_sum]
    simp only [List.length_cons]
    omega

/-- A color id appears in the fold result exactly when it was already
present or occurs among the processed cells. -/
theorem fold_mem_ids (cells : List MosaicGridCell) :
    ∀ (acc : List ShoppingListItem) (x : String),
      (x ∈ (cells.foldl bumpColor acc).map (·.colorId)) ↔
        x ∈ acc.map (·.colorId) ∨ x ∈ cells.map (·.colorId) := by
  induction cells with
  | nil => intro acc x; simp
  | cons cell rest ih =>
    intro acc x
    rw [List.foldl_cons, ih, bump_ids]
    by_cases h : cell.colorId ∈ acc.map (·.colorId)
    · rw [if_pos h]
      simp only [List.map_cons, List.mem_cons]
      constructor
      · rintro (h1 | h1)
        · exact Or.inl h1
        · exact Or.inr (Or.inr h1)
      · rintro (h1 | h1 | h1)
        · exact Or.inl h1
        · exact Or.inl (h1 ▸ h)
        · exact Or.inr h1
    · rw [if_neg h]
      simp only [List.mem_append, List.map_cons, List.mem_cons, List.mem_singleton]
      tauto

/-- The fold keeps the id sequence duplicate-free. -/
theorem fold_nodup_ids (cells : List MosaicGridCell) :
    ∀ acc : List ShoppingListItem,
      (acc.map (·.colorId)).Nodup →
      ((cells.foldl bumpColor acc).map (·.colorId)).Nodup := by
  induction cells with
  | nil => intro acc h; exact h
  | cons cell rest ih =>
    intro acc h
    rw [List.foldl_cons]
    apply ih
    rw [bump_ids]
    by_cases hm : cell.colorId ∈ acc.map (·.colorId)
    · rw [if_pos hm]; exact h
    · rw [if_neg hm]
      simp [List.nodup_append, h, hm]

theorem firstIdx_lt_length {l : List String} {x : String} (h : x ∈ l) :
    firstIdx l x < l.length := by
  induction l with
  | nil => simp at h
  | cons y ys ih =>
    rw [firstIdx]
    by_cases hy : y = x
    · rw [if_pos hy]; simp
    · rw [if_neg hy]
      have hx : x ∈ ys := by
        rcases List.mem_cons.mp h with h1 | h1
        · exact absurd h1.symm hy
        · exact h1
      have := ih hx
      simp only [List.length_cons]
      omega

theorem firstIdx_append_left {p : List String} (q : List String) {x : String}
    (h : x ∈ p) : firstIdx (p ++ q) x = firstIdx p x := by
  induction p with
  | nil => simp at h
  | cons y ys ih =>
    rw [List.cons_append, firstIdx, firstIdx]
    by_cases hy : y = x
    · rw [if_pos hy, if_pos hy]
    · rw [if_neg hy, if_neg hy]
      have hx : x ∈ ys := by
        rcases List.mem_cons.mp h with h1 | h1
        · exact absurd h1.symm hy
        · exact h1
      rw [ih hx]

theorem firstIdx_append_right {p : List String} (q : List String) {x : String}
    (h : x ∉ p) : firstIdx (p ++ q) x = p.length + firstIdx q x := by
  induction p with
  | nil => simp
  | cons y ys ih =>
    rw [List.cons_append, firstIdx]
    have hy : ¬(y = x) := fun hh => h (hh ▸ List.mem_cons_self _ _)
    rw [if_neg hy]
    have hx : x ∉ ys := fun hh => h (List.mem_cons_of_mem _ hh)
    rw [ih hx]
    simp only [List.length_cons]
    omega

/-- The counting fold lists color ids in order of first occurrence: the
id sequence is strictly increasing in first-occurrence index. -/
theorem fold_pairwise (L : List String) :
    ∀ (cells : List MosaicGridCell) (p : List String) (acc : List ShoppingListItem),
      L = p ++ cells.map (·.colorId) →
      (∀ x : String, x ∈ acc.map (·.colorId) ↔ x ∈ p) →
      (acc.map (·.colorId)).Pairwise (fun x y => firstIdx L x < firstIdx L y) →
      ((cells.foldl bumpColor acc).map (·.colorId)).Pairwise
        (fun x y => firstIdx L x < firstIdx L y) := by
  intro cells
  induction cells with
  | nil =>
    intro p acc hL hmem hpw
    simpa using hpw
  | cons cell rest ih =>
    intro p acc hL hmem hpw
    rw [List.foldl_cons]
    apply ih (p ++ [cell.colorId])
    · rw [hL]
      simp
    · intro x
      rw [bump_ids]
      by_cases hc : cell.colorId ∈ acc.map (·.colorId)
      · rw [if_pos hc]
        rw [hmem x]
        constructor
        · intro h
          exact List.mem_append.mpr (Or.inl h)
        · intro h
          rcases List.mem_append.mp h with h1 | h1
          · exact h1
          · have hx : x = cell.colorId := by simpa using h1
            exact hx ▸ ((hmem _).mp hc)
      · rw [if_neg hc]
        simp only [List.mem_append, List.mem_singleton, hmem x]
    · rw [bump_ids]
      by_cases hc : cell.colorId ∈ acc.map (·.colorId)
      · rw [if_pos hc]
        exact hpw
      · rw [if_neg hc]
        rw [List.pairwise_append]
        refine ⟨hpw, by simp, ?_⟩
        intro x hx y hy
        have hxp : x ∈ p := (hmem x).mp hx
        have hy2 : y = cell.colorId := by simpa using hy
        subst hy2
        have hcp : cell.colorId ∉ p := fun hh => hc ((hmem _).mpr hh)
        rw [hL, firstIdx_append_left _ hxp, firstIdx_append_right _ hcp]
        have h1 : firstIdx p x < p.length := firstIdx_lt_length hxp
        have h2 : firstIdx ((cell :: rest).map (·.colorId)) cell.colorId = 0 := by
          simp [firstIdx]
        omega

/-- Two positions of a list give a two-element sublist. -/
theorem pair_sublist_of_getElem {α : Type} (l : List α) :
    ∀ (i j : Nat) (a b : α), i < j → l[i]? = some a → l[j]? = some b →
      [a, b].Sublist l := by
  induction l with
  | nil =>
    intro i j a b hij h1 h2
    simp at h1
  | cons x xs ih =>
    intro i j a b hij h1 h2
    cases i with
    | zero =>
      cases j with
      | zero => omega
      | succ j =>
        have hxa : x = a := by simpa using h1
        subst hxa
        have hb : b ∈ xs := List.getElem?_mem (by simpa using h2)
        exact List.Sublist.cons₂ x (List.singleton_sublist.mpr hb)
    | succ i =>
      cases j with
      | zero => omega
      | succ j =>
        exact List.Sublist.cons x
          (ih i j a b (by omega) (by simpa using h1) (by simpa using h2))

/-- Two distinct members of a list occur in one order or the other. -/
theorem sublist_pair_total {α : Type} {l : List α} {a b : α}
    (ha : a ∈ l) (hb : b ∈ l) (hne : a ≠ b) :
    [a, b].Sublist l ∨ [b, a].Sublist l := by
  induction l with
  | nil => simp at ha
  | cons x xs ih =>
    rcases List.mem_cons.mp ha with h1 | h1
    · subst h1
      have hbxs : b ∈ xs := by
        rcases List.mem_cons.mp hb with h2 | h2
        · exact absurd h2.symm hne
        · exact h2
      exact Or.inl (List.Sublist.cons₂ _ (List.singleton_sublist.mpr hbxs))
    · rcases List.mem_cons.mp hb with h2 | h2
      · subst h2
        exact Or.inr (List.Sublist.cons₂ _ (List.singleton_sublist.mpr h1))
      · rcases ih h1 h2 with h | h
        · exact Or.inl (List.Sublist.cons x h)
        · exact Or.inr (List.Sublist.cons x h)

/-- In a duplicate-free list, two distinct elements occur in only one
order. -/
theorem nodup_pair_asymm {α : Type} :
    ∀ (l : List α), l.Nodup → ∀ (a b : α), a ≠ b →
      [a, b].Sublist l → [b, a].Sublist l → False := by
  intro l
  induction l with
  | nil =>
    intro hnd a b hne h1 h2
    simp at h1
  | cons x xs ih =>
    intro hnd a b hne h1 h2
    obtain ⟨hx, hxs⟩ := List.nodup_cons.mp hnd
    cases h1 with
    | cons _ h1 =>
      cases h2 with
      | cons _ h2 => exact ih hxs a b hne h1 h2
      | cons₂ h2 => exact hx (h1.subset (by simp))
    | cons₂ h1 =>
      cases h2 with
      | cons _ h2 => exact hx (h2.subset (by simp))
      | cons₂ h2 => exact hne rfl

theorem itemLe_trans : ∀ a b c : ShoppingListItem,
    itemLe a b = true → itemLe b c = true → itemLe a c = true := by
  intro a b c h1 h2
  simp only [itemLe, decide_eq_true_eq] at h1 h2 ⊢
  omega

theorem itemLe_total : ∀ a b : ShoppingListItem,
    (itemLe a b || itemLe b a) = true := by
  intro a b
  simp only [itemLe, Bool.or_eq_true, decide_eq_true_eq]
  omega

/-- Claim C2: for every rectangular grid, `recalculateShoppingList` has
duplicate-free color ids covering exactly the colors of the grid, its
quantities sum to the number of cells, it is sorted non-increasing by
quantity, and ties keep the deterministic first-occurrence (row-major)
order. -/
theorem shopping_list_spec :
    ∀ g : Grid, Rect g →
      ((recalculateShoppingList g).map (·.colorId)).Nodup ∧
      (∀ cid : String, cid ∈ (recalculateShoppingList g).map (·.colorId) ↔
        cid ∈ g.flatten.map (·.colorId)) ∧
      ((recalculateShoppingList g).map (·.quantity)).sum = g.flatten.length ∧
      (recalculateShoppingList g).Pairwise (fun a b => b.quantity ≤ a.quantity) ∧
      (∀ (i j : Nat) (a b : ShoppingListItem), i < j →
        (recalculateShoppingList g)[i]? = some a →
        (recalculateShoppingList g)[j]? = some b →
        a.quantity = b.quantity →
        firstIdx (g.flatten.map (·.colorId)) a.colorId <
          firstIdx (g.flatten.map (·.colorId)) b.colorId) := by
  intro g hrect
  have hperm : (recalculateShoppingList g).Perm (countColors g) :=
    List.mergeSort_perm (countColors g) itemLe
  have hpermids := hperm.map (·.colorId)
  have hnodup_cl : ((countColors g).map (·.colorId)).Nodup :=
    fold_nodup_ids g.flatten [] (by simp)
  have hnodup : ((recalculateShoppingList g).map (·.colorId)).Nodup :=
    hpermids.nodup_iff.mpr hnodup_cl
  have hnodup_sl : (recalculateShoppingList g).Nodup :=
    List.Nodup.of_map _ hnodup
  refine ⟨hnodup, ?_, ?_, ?_, ?_⟩
  · intro cid
    rw [hpermids.mem_iff]
    unfold countColors
    rw [fold_mem_ids]
    simp
  · have h1 := fold_sum g.flatten []
    simp only [List.map_nil, List.sum_nil, Nat.zero_add] at h1
    have h2 := (hperm.map (·.quantity)).sum_eq
    rw [h2]
    exact h1
  · have hs := List.sorted_mergeSort itemLe_trans itemLe_total (countColors g)
    refine hs.imp ?_
    intro a b h
    simpa only [itemLe, decide_eq_true_eq] using h
  · intro i j a b hij h1 h2 hq
    have hab_sl : [a, b].Sublist (recalculateShoppingList g) :=
      pair_sublist_of_getElem _ i j a b hij h1 h2
    have hnepair := List.Pairwise.sublist hab_sl hnodup_sl
    have hne : a ≠ b := (List.pairwise_cons.mp hnepair).1 b (List.mem_singleton.mpr rfl)
    have ha_cl : a ∈ countColors g := hperm.subset (hab_sl.subset (by simp))
    have hb_cl : b ∈ countColors g := hperm.subset (hab_sl.subset (by simp))
    have hpw : ((countColors g).map (·.colorId)).Pairwise
        (fun x y => firstIdx (g.flatten.map (·.colorId)) x <
          firstIdx (g.flatten.map (·.colorId)) y) :=
      fold_pairwise (g.flatten.map (·.colorId)) g.flatten [] []
        (by simp) (by simp) (by simp)
    rcases sublist_pair_total ha_cl hb_cl hne with hcl | hcl
    · have hids : [a.colorId, b.colorId].Sublist ((countColors g).map (·.colorId)) := by
        have hmap := hcl.map (·.colorId)
        simpa using hmap
      have hpair := List.Pairwise.sublist hids hpw
      exact (List.pairwise_cons.mp hpair).1 _ (List.mem_singleton.mpr rfl)
    · exfalso
      have hpair_le : List.Pairwise (fun x y => itemLe x y = true) [b, a] := by
        rw [List.pairwise_cons]
        refine ⟨?_, by simp⟩
        intro y hy
        have hya : y = a := by simpa using hy
        subst hya
        simp only [itemLe, decide_eq_true_eq]
        omega
      have hba_sl : [b, a].Sublist (recalculateShoppingList g) :=
        List.sublist_mergeSort itemLe_trans itemLe_total hpair_le hcl
      exact nodup_pair_asymm _ hnodup_sl a b hne hab_sl hba_sl

/-- Witness for C2 at the 2 x 2 all-`A` grid. -/
theorem shopping_list_spec_witness :
    Rect gridAA ∧
    (((recalculateShoppingList gridAA).map (·.colorId)).Nodup ∧
      (∀ cid : String, cid ∈ (recalculateShoppingList gridAA).map (·.colorId) ↔
        cid ∈ gridAA.flatten.map (·.colorId)) ∧
      ((recalculateShoppingList gridAA).map (·.quantity)).sum = gridAA.flatten.length ∧
      (recalculateShoppingList gridAA).Pairwise (fun a b => b.quantity ≤ a.quantity) ∧
      (∀ (i j : Nat) (a b : ShoppingListItem), i < j →
        (recalculateShoppingList gridAA)[i]? = some a →
        (recalculateShoppingList gridAA)[j]? = some b →
        a.quantity = b.quantity →
        firstIdx (gridAA.flatten.map (·.colorId)) a.colorId <
          firstIdx (gridAA.flatten.map (·.colorId)) b.colorId)) :=
  ⟨by decide, shopping_list_spec gridAA (by decide)⟩

end MosaicMe
